import Mathlib

/-!
# Verification of the multi-swe-bench build scheduler and log parsers

Shallow embedding of `multi_swe_bench/harness/prebuild_envagent_images.py`
(dependency-graph construction, the layered wave scheduler, `build_image`,
`run_instance`, `check_commit_hashes`, the instance-list construction) and of
the two cited `parse_log` implementations
(`repos/python/getmoto/moto_4_0_6.py` and `repos/java/google/guava.py`).

Conventions: an image's upstream chain is represented by an inductive type
(mirroring the documented invariant that chains are finite and acyclic, which
is what makes the source's `while isinstance(required_image, Image)` loop
terminate); Python `set`/`dict` become `Finset` and total functions with a
default; raising code returns `Except`/`Option`.
-/

namespace MSB

/-- One buildable image layer. `dependency()` of a `base` is an external
reference string (a public base image the container runtime resolves);
`dependency()` of a `layer` is another internally built image.
This mirrors the Image Spec interface consumed by the scheduler. -/
inductive Image : Type where
  | base  (name : String) (ref : String) : Image
  | layer (name : String) (parent : Image) : Image
deriving DecidableEq

/-- `image_full_name()` of an image. -/
def Image.image_full_name : Image → String
  | .base n _ => n
  | .layer n _ => n

/-- `dependency()` of an image: another image or an external reference. -/
def Image.dependency : Image → Image ⊕ String
  | .base _ r => .inr r
  | .layer _ p => .inl p

/-- The `parent_image_name` the graph-construction loop computes for an image
(lines 620-625): the parent's `image_full_name()` for an internal parent, the
raw reference string for an external one. -/
def Image.depName : Image → String
  | .base _ r => r
  | .layer _ p => p.image_full_name

/-- The external reference terminating an image's upstream chain. -/
def Image.rootRef : Image → String
  | .base _ r => r
  | .layer _ p => p.rootRef

/-- Length of the internal upstream chain below an image. -/
def Image.depth : Image → Nat
  | .base _ _ => 0
  | .layer _ p => p.depth + 1

/-- All images of an image's upstream chain, the image itself included.
These are exactly the `required_image` values the source loop visits. -/
def Image.chain : Image → List Image
  | .base n r => [.base n r]
  | .layer n p => .layer n p :: p.chain

/-- The strict internal ancestors of an image (its upstream chain without
the image itself). -/
def Image.properAncestors : Image → List Image
  | .base _ _ => []
  | .layer _ p => p :: p.properAncestors

/-- The build graph of `run_mode_image` (lines 615-616): the set
`external_images` of external roots and the forward adjacency map `images`
from a name to the set of images whose immediate upstream is that name.
The Python `dict` is modelled as a total function defaulting to `∅`
(an absent key and an empty entry are indistinguishable to the loop). -/
structure BuildGraph where
  external_images : Finset String
  images : String → Finset Image

/-- The graph state before any instance has been processed. -/
def emptyGraph : BuildGraph := ⟨∅, fun _ => ∅⟩

/-- `images[parent_image_name].add(required_image)` (lines 628-630). -/
def addImage (m : String → Finset Image) (k : String) (i : Image) :
    String → Finset Image :=
  fun n => if n = k then insert i (m n) else m n

/-- One instance's pass of the graph-construction loop (lines 618-632):
walk the chain from the instance's `dependency()` image, recording each
visited image under its parent's name, and the terminal external reference
into `external_images`. -/
def collect : Image → BuildGraph → BuildGraph
  | .base n r, g =>
      ⟨insert r g.external_images, addImage g.images r (.base n r)⟩
  | .layer n p, g =>
      collect p ⟨g.external_images, addImage g.images p.image_full_name (.layer n p)⟩

/-- The full graph construction of `run_mode_image` (lines 614-632), folding
the per-instance chain walk over the instance list. Each list element is one
instance's `dependency()` image. -/
def buildGraph (insts : List Image) : BuildGraph :=
  insts.foldl (fun g i => collect i g) emptyGraph

/-- Every image recorded in the build graph: the union of the instances'
upstream chains. -/
def graphImages (insts : List Image) : List Image :=
  insts.flatMap Image.chain

/-- Wave 0 (lines 638-641): all images whose recorded upstream is an external
root. -/
def wave0 (g : BuildGraph) : Finset Image :=
  g.external_images.biUnion g.images

/-- The frontier for the next round (lines 670-680): the union of
`images[n.full_name]` over the nodes `n` of the current wave that did not
fail; failed nodes contribute nothing. `buildOk` abstracts the outcome of
`build_image` for each node (an exception means `false`). -/
def nextWave (images : String → Finset Image) (buildOk : Image → Bool)
    (wave : Finset Image) : Finset Image :=
  (wave.filter fun i => buildOk i = true).biUnion
    (fun i => images i.image_full_name)

/-- The wave submitted in round `k` of the `while building_images` loop
(lines 643-680) when no failure aborts the run: round 0 is seeded from the
external roots, and each later round is computed from the complete outcome of
the previous one (the `with ThreadPoolExecutor` block joins every build of a
wave before the next frontier is formed). -/
def waves (g : BuildGraph) (buildOk : Image → Bool) : Nat → Finset Image
  | 0 => wave0 g
  | k + 1 => nextWave g.images buildOk (waves g buildOk k)

/-! ## Structural facts about the graph construction -/

theorem mem_addImage {m : String → Finset Image} {k : String} {i x : Image}
    {u : String} : x ∈ addImage m k i u ↔ x ∈ m u ∨ (u = k ∧ x = i) := by
  unfold addImage
  by_cases h : u = k
  · subst h; simp [Finset.mem_insert]; tauto
  · simp [h]

theorem mem_collect_images (i : Image) (g : BuildGraph) (u : String) (x : Image) :
    x ∈ (collect i g).images u ↔
      x ∈ g.images u ∨ (x ∈ i.chain ∧ u = x.depName) := by
  induction i generalizing g with
  | base n r =>
      simp only [collect, Image.chain, List.mem_singleton]
      rw [mem_addImage]
      constructor
      · rintro (h | ⟨rfl, rfl⟩)
        · exact Or.inl h
        · exact Or.inr ⟨rfl, rfl⟩
      · rintro (h | ⟨rfl, rfl⟩)
        · exact Or.inl h
        · exact Or.inr ⟨rfl, rfl⟩
  | layer n p ih =>
      simp only [collect, Image.chain, List.mem_cons]
      rw [ih]
      simp only [mem_addImage]
      constructor
      · rintro ((h | ⟨rfl, rfl⟩) | ⟨hc, rfl⟩)
        · exact Or.inl h
        · exact Or.inr ⟨Or.inl rfl, rfl⟩
        · exact Or.inr ⟨Or.inr hc, rfl⟩
      · rintro (h | ⟨(rfl | hc), rfl⟩)
        · exact Or.inl (Or.inl h)
        · exact Or.inl (Or.inr ⟨rfl, rfl⟩)
        · exact Or.inr ⟨hc, rfl⟩

theorem mem_collect_external (i : Image) (g : BuildGraph) (r : String) :
    r ∈ (collect i g).external_images ↔
      r ∈ g.external_images ∨ r = i.rootRef := by
  induction i generalizing g with
  | base n rr => simp [collect, Image.rootRef, Finset.mem_insert]; tauto
  | layer n p ih => simp [collect, Image.rootRef, ih]

theorem mem_buildGraph_images (insts : List Image) (u : String) (x : Image) :
    x ∈ (buildGraph insts).images u ↔
      ∃ i ∈ insts, x ∈ i.chain ∧ u = x.depName := by
  suffices h : ∀ g, (x ∈ (insts.foldl (fun g i => collect i g) g).images u ↔
      x ∈ g.images u ∨ ∃ i ∈ insts, x ∈ i.chain ∧ u = x.depName) by
    have := h emptyGraph
    simpa [buildGraph, emptyGraph] using this
  induction insts with
  | nil => simp
  | cons a l ih =>
      intro g
      simp only [List.foldl_cons, List.mem_cons]
      rw [ih, mem_collect_images]
      constructor
      · rintro ((h | h) | ⟨i, hi, h⟩)
        · exact Or.inl h
        · exact Or.inr ⟨a, Or.inl rfl, h⟩
        · exact Or.inr ⟨i, Or.inr hi, h⟩
      · rintro (h | ⟨i, (rfl | hi), h⟩)
        · exact Or.inl (Or.inl h)
        · exact Or.inl (Or.inr h)
        · exact Or.inr ⟨i, hi, h⟩

theorem mem_buildGraph_external (insts : List Image) (r : String) :
    r ∈ (buildGraph insts).external_images ↔ ∃ i ∈ insts, r = i.rootRef := by
  suffices h : ∀ g, (r ∈ (insts.foldl (fun g i => collect i g) g).external_images ↔
      r ∈ g.external_images ∨ ∃ i ∈ insts, r = i.rootRef) by
    have := h emptyGraph
    simpa [buildGraph, emptyGraph] using this
  induction insts with
  | nil => simp
  | cons a l ih =>
      intro g
      simp only [List.foldl_cons, List.mem_cons]
      rw [ih, mem_collect_external]
      constructor
      · rintro ((h | h) | ⟨i, hi, h⟩)
        · exact Or.inl h
        · exact Or.inr ⟨a, Or.inl rfl, h⟩
        · exact Or.inr ⟨i, Or.inr hi, h⟩
      · rintro (h | ⟨i, (rfl | hi), h⟩)
        · exact Or.inl (Or.inl h)
        · exact Or.inl (Or.inr h)
        · exact Or.inr ⟨i, hi, h⟩

theorem self_mem_chain (i : Image) : i ∈ i.chain := by
  cases i <;> simp [Image.chain]

theorem mem_chain_trans {i x y : Image} (hx : x ∈ i.chain) (hy : y ∈ x.chain) :
    y ∈ i.chain := by
  induction i with
  | base n r =>
      simp only [Image.chain, List.mem_singleton] at hx
      subst hx; exact hy
  | layer n p ih =>
      simp only [Image.chain, List.mem_cons] at hx ⊢
      rcases hx with rfl | hx
      · simpa [Image.chain] using hy
      · exact Or.inr (ih hx)

theorem rootRef_of_mem_chain {i x : Image} (hx : x ∈ i.chain) :
    x.rootRef = i.rootRef := by
  induction i with
  | base n r =>
      simp only [Image.chain, List.mem_singleton] at hx
      subst hx; rfl
  | layer n p ih =>
      simp only [Image.chain, List.mem_cons] at hx
      rcases hx with rfl | hx
      · rfl
      · simpa [Image.rootRef] using ih hx

theorem parent_mem_graphImages {insts : List Image} {n : String} {p : Image}
    (h : Image.layer n p ∈ graphImages insts) : p ∈ graphImages insts := by
  simp only [graphImages, List.mem_flatMap] at h ⊢
  obtain ⟨i, hi, hc⟩ := h
  exact ⟨i, hi, mem_chain_trans hc (by simp [Image.chain, self_mem_chain])⟩

theorem graphImages_mem_images {insts : List Image} {x : Image}
    (h : x ∈ graphImages insts) :
    x ∈ (buildGraph insts).images x.depName := by
  simp only [graphImages, List.mem_flatMap] at h
  obtain ⟨i, hi, hc⟩ := h
  exact (mem_buildGraph_images insts x.depName x).mpr ⟨i, hi, hc, rfl⟩

theorem base_ref_external {insts : List Image} {n r : String}
    (h : Image.base n r ∈ graphImages insts) :
    r ∈ (buildGraph insts).external_images := by
  simp only [graphImages, List.mem_flatMap] at h
  obtain ⟨i, hi, hc⟩ := h
  have := rootRef_of_mem_chain hc
  simp only [Image.rootRef] at this
  exact (mem_buildGraph_external insts r).mpr ⟨i, hi, this⟩

theorem images_mem_graphImages {insts : List Image} {u : String} {x : Image}
    (h : x ∈ (buildGraph insts).images u) :
    x ∈ graphImages insts ∧ u = x.depName := by
  rw [mem_buildGraph_images] at h
  obtain ⟨i, hi, hc, hu⟩ := h
  exact ⟨by simp only [graphImages, List.mem_flatMap]; exact ⟨i, hi, hc⟩, hu⟩

/-! ## Wave-membership facts -/

theorem mem_wave0 {g : BuildGraph} {x : Image} :
    x ∈ wave0 g ↔ ∃ r ∈ g.external_images, x ∈ g.images r := by
  simp [wave0, Finset.mem_biUnion]

theorem mem_nextWave {images : String → Finset Image} {buildOk : Image → Bool}
    {wave : Finset Image} {x : Image} :
    x ∈ nextWave images buildOk wave ↔
      ∃ m ∈ wave, buildOk m = true ∧ x ∈ images m.image_full_name := by
  simp only [nextWave, Finset.mem_biUnion, Finset.mem_filter]
  tauto

theorem nextWave_empty (images : String → Finset Image) (buildOk : Image → Bool) :
    nextWave images buildOk ∅ = ∅ := by
  simp [nextWave]

theorem mem_waves_graphImages {insts : List Image} {buildOk : Image → Bool}
    {k : Nat} {x : Image} (h : x ∈ waves (buildGraph insts) buildOk k) :
    x ∈ graphImages insts := by
  cases k with
  | zero =>
      rw [waves, mem_wave0] at h
      obtain ⟨r, _, hx⟩ := h
      exact (images_mem_graphImages hx).1
  | succ k =>
      rw [waves, mem_nextWave] at h
      obtain ⟨m, _, _, hx⟩ := h
      exact (images_mem_graphImages hx).1

/-! ## Well-formedness hypotheses on the input chains

`image_full_name()` is an identifier: two distinct recorded images never
share a full name, and no recorded image reuses the name of an external
root. Both are decidable on concrete inputs. -/

def NamesInj (insts : List Image) : Prop :=
  ∀ a ∈ graphImages insts, ∀ b ∈ graphImages insts,
    a.image_full_name = b.image_full_name → a = b

def ExtFresh (insts : List Image) : Prop :=
  ∀ a ∈ graphImages insts,
    a.image_full_name ∉ (buildGraph insts).external_images

instance (insts : List Image) : Decidable (NamesInj insts) := by
  unfold NamesInj; infer_instance

instance (insts : List Image) : Decidable (ExtFresh insts) := by
  unfold ExtFresh; infer_instance

theorem mem_waves_zero {insts : List Image} {buildOk : Image → Bool} {x : Image}
    (hext : ExtFresh insts)
    (h : x ∈ waves (buildGraph insts) buildOk 0) :
    ∃ n r, x = Image.base n r ∧ r ∈ (buildGraph insts).external_images := by
  rw [waves, mem_wave0] at h
  obtain ⟨r, hr, hx⟩ := h
  obtain ⟨hg, hdep⟩ := images_mem_graphImages hx
  cases x with
  | base n rr =>
      simp only [Image.depName] at hdep
      exact ⟨n, rr, rfl, hdep ▸ hr⟩
  | layer n p =>
      simp only [Image.depName] at hdep
      exact absurd (hdep ▸ hr) (hext p (parent_mem_graphImages hg))

theorem mem_waves_succ {insts : List Image} {buildOk : Image → Bool}
    {k : Nat} {x : Image}
    (hinj : NamesInj insts) (hext : ExtFresh insts)
    (h : x ∈ waves (buildGraph insts) buildOk (k + 1)) :
    ∃ n p, x = Image.layer n p ∧ p ∈ waves (buildGraph insts) buildOk k ∧
      buildOk p = true := by
  rw [waves, mem_nextWave] at h
  obtain ⟨m, hm, hok, hx⟩ := h
  obtain ⟨hg, hdep⟩ := images_mem_graphImages hx
  have hmg : m ∈ graphImages insts := mem_waves_graphImages hm
  cases x with
  | base n r =>
      simp only [Image.depName] at hdep
      have : r ∈ (buildGraph insts).external_images := base_ref_external hg
      exact absurd (hdep ▸ this) (hext m hmg)
  | layer n p =>
      simp only [Image.depName] at hdep
      have hpg : p ∈ graphImages insts := parent_mem_graphImages hg
      have : m = p := hinj m hmg p hpg hdep
      subst this
      exact ⟨n, m, rfl, hm, hok⟩

theorem properAncestors_subset_chain {x a : Image}
    (ha : a ∈ x.properAncestors) : a ∈ x.chain := by
  induction x with
  | base n r => simp [Image.properAncestors] at ha
  | layer n p ih =>
      simp only [Image.properAncestors, List.mem_cons] at ha
      simp only [Image.chain, List.mem_cons]
      rcases ha with rfl | ha
      · exact Or.inr (self_mem_chain _)
      · exact Or.inr (ih ha)

theorem mem_waves_depth {insts : List Image} {buildOk : Image → Bool} {x : Image}
    (hg : x ∈ graphImages insts)
    (hanc : ∀ a ∈ x.properAncestors, buildOk a = true) :
    x ∈ waves (buildGraph insts) buildOk x.depth := by
  induction x with
  | base n r =>
      rw [Image.depth, waves, mem_wave0]
      exact ⟨r, base_ref_external hg, graphImages_mem_images hg⟩
  | layer n p ih =>
      rw [Image.depth, waves, mem_nextWave]
      have hpg : p ∈ graphImages insts := parent_mem_graphImages hg
      have hpanc : ∀ a ∈ p.properAncestors, buildOk a = true := by
        intro a ha
        exact hanc a (by simp [Image.properAncestors, ha])
      refine ⟨p, ih hpg hpanc, ?_, ?_⟩
      · exact hanc p (by simp [Image.properAncestors])
      · have := graphImages_mem_images hg
        simpa [Image.depName] using this

theorem waves_index_eq_depth {insts : List Image} {buildOk : Image → Bool}
    (hinj : NamesInj insts) (hext : ExtFresh insts) :
    ∀ k x, x ∈ waves (buildGraph insts) buildOk k → k = x.depth := by
  intro k
  induction k with
  | zero =>
      intro x hx
      obtain ⟨n, r, rfl, _⟩ := mem_waves_zero hext hx
      rfl
  | succ k ih =>
      intro x hx
      obtain ⟨n, p, rfl, hp, _⟩ := mem_waves_succ hinj hext hx
      simp [Image.depth, ih p hp]

/-! ## Claims C1 - C3 -/

/-- C1: for every edge recorded in the build graph, a node appears in wave
`k+1` only if its upstream image was built successfully in wave `k`, the
strictly earlier wave, and a node of wave 0 has an external upstream.  Waves
themselves are strictly sequential by construction: `waves (k+1)` is a
function of the complete outcome of `waves k`, mirroring the source where
the `ThreadPoolExecutor` block of one round joins every build before the next
frontier is computed (lines 643-680). -/
theorem scheduler_ordering (insts : List Image) (buildOk : Image → Bool)
    (hinj : NamesInj insts) (hext : ExtFresh insts) :
    (∀ x ∈ waves (buildGraph insts) buildOk 0,
        ∃ r, x.dependency = Sum.inr r ∧
          r ∈ (buildGraph insts).external_images) ∧
    (∀ k, ∀ x ∈ waves (buildGraph insts) buildOk (k + 1),
        ∃ p, x.dependency = Sum.inl p ∧
          p ∈ waves (buildGraph insts) buildOk k ∧ buildOk p = true) := by
  constructor
  · intro x hx
    obtain ⟨n, r, rfl, hr⟩ := mem_waves_zero hext hx
    exact ⟨r, rfl, hr⟩
  · intro k x hx
    obtain ⟨n, p, rfl, hp, hok⟩ := mem_waves_succ hinj hext hx
    exact ⟨p, rfl, hp, hok⟩

/-- C1 witness: a two-layer chain `B ← A ← "ubuntu:22.04"`; `B` sits in wave 1
and the theorem yields its upstream `A` built successfully in wave 0. -/
theorem scheduler_ordering_witness :
    ∃ p, (Image.layer "B" (Image.base "A" "ubuntu:22.04")).dependency
          = Sum.inl p ∧
      p ∈ waves (buildGraph [Image.layer "B" (Image.base "A" "ubuntu:22.04")])
            (fun _ => true) 0 ∧ (fun _ : Image => true) p = true :=
  (scheduler_ordering [Image.layer "B" (Image.base "A" "ubuntu:22.04")]
      (fun _ => true) (by decide) (by decide)).2 0
    (Image.layer "B" (Image.base "A" "ubuntu:22.04")) (by decide)

/-- C2: with every build succeeding, each image recorded in the build graph
is submitted in exactly one wave (and a wave is a set, so one submission in
that wave): every reachable node is built exactly once.  Two tasks sharing an
upstream chain prefix converge to the same recorded node, so the shared node
too is built once; the concurrency bound `max_workers_build_image` only
limits parallelism inside a wave and does not occur in the submission sets. -/
theorem scheduler_builds_exactly_once (insts : List Image)
    (buildOk : Image → Bool)
    (hinj : NamesInj insts) (hext : ExtFresh insts)
    (hok : ∀ x ∈ graphImages insts, buildOk x = true) :
    ∀ x ∈ graphImages insts, ∃! k, x ∈ waves (buildGraph insts) buildOk k := by
  intro x hx
  refine ⟨x.depth, ?_, ?_⟩
  · refine mem_waves_depth hx ?_
    intro a ha
    refine hok a ?_
    simp only [graphImages, List.mem_flatMap] at hx ⊢
    obtain ⟨i, hi, hc⟩ := hx
    exact ⟨i, hi, mem_chain_trans hc (properAncestors_subset_chain ha)⟩
  · intro k hk
    exact waves_index_eq_depth hinj hext k x hk

/-- C2 witness: two tasks `B` and `C` sharing the upstream prefix `A`; the
shared node `A` is submitted in exactly one wave. -/
theorem scheduler_builds_exactly_once_witness :
    ∃! k, Image.base "A" "ubuntu:22.04" ∈
      waves (buildGraph
        [Image.layer "B" (Image.base "A" "ubuntu:22.04"),
         Image.layer "C" (Image.base "A" "ubuntu:22.04")]) (fun _ => true) k :=
  scheduler_builds_exactly_once
    [Image.layer "B" (Image.base "A" "ubuntu:22.04"),
     Image.layer "C" (Image.base "A" "ubuntu:22.04")]
    (fun _ => true) (by decide) (by decide) (by decide)
    (Image.base "A" "ubuntu:22.04") (by decide)

/-! ## The concrete scenario of spec section 8:
roots `{"ubuntu:22.04"}`, graph `{"ubuntu:22.04": {A}, "A": {B, C}}`,
realised by two tasks whose chains are `B ← A` and `C ← A`. -/

def imgA : Image := Image.base "A" "ubuntu:22.04"

def imgB : Image := Image.layer "B" imgA

def imgC : Image := Image.layer "C" imgA

def scenarioInsts : List Image := [imgB, imgC]

/-- Build outcome in which every build succeeds. -/
def okAll : Image → Bool := fun _ => true

/-- Build outcome in which exactly the build of `A` fails. -/
def okFailA : Image → Bool := fun i => if i = imgA then false else true

theorem waves_succ_of_empty {g : BuildGraph} {buildOk : Image → Bool} {k : Nat}
    (h : waves g buildOk k = ∅) : waves g buildOk (k + 1) = ∅ := by
  rw [waves, h, nextWave_empty]

theorem waves_scenario_fail_succ (k : Nat) :
    waves (buildGraph scenarioInsts) okFailA (k + 1) = ∅ := by
  induction k with
  | zero => decide
  | succ k ih => exact waves_succ_of_empty ih

/-- C3: (general part) a node appears in some wave only if every ancestor on
its upstream chain built successfully — so once a node fails, no transitive
descendant of it is ever submitted or built.  (Concrete part) in the scenario
`roots = {"ubuntu:22.04"}`, `graph = {"ubuntu:22.04": {A}, "A": {B, C}}`:
with all builds succeeding the waves are `{A}` then `{B, C}` then nothing;
with `A` failing, wave 0 is `{A}`, every later wave is empty — so no wave
ever contains `B` or `C` — and the set of successfully built images is
empty. -/
theorem failed_descendants_pruned (insts : List Image) (buildOk : Image → Bool)
    (hinj : NamesInj insts) (hext : ExtFresh insts) :
    (∀ k, ∀ x ∈ waves (buildGraph insts) buildOk k,
        ∀ a ∈ x.properAncestors, buildOk a = true) ∧
    (waves (buildGraph scenarioInsts) okAll 0 = {imgA} ∧
     waves (buildGraph scenarioInsts) okAll 1 = {imgB, imgC} ∧
     waves (buildGraph scenarioInsts) okAll 2 = ∅ ∧
     waves (buildGraph scenarioInsts) okFailA 0 = {imgA} ∧
     (∀ k, waves (buildGraph scenarioInsts) okFailA (k + 1) = ∅) ∧
     (∀ k, (waves (buildGraph scenarioInsts) okFailA k).filter
        (fun i => okFailA i = true) = ∅)) := by
  constructor
  · intro k
    induction k with
    | zero =>
        intro x hx a ha
        obtain ⟨n, r, rfl, _⟩ := mem_waves_zero hext hx
        simp [Image.properAncestors] at ha
    | succ k ih =>
        intro x hx a ha
        obtain ⟨n, p, rfl, hp, hok⟩ := mem_waves_succ hinj hext hx
        simp only [Image.properAncestors, List.mem_cons] at ha
        rcases ha with rfl | ha
        · exact hok
        · exact ih p hp a ha
  · refine ⟨by decide, by decide, by decide, by decide,
      waves_scenario_fail_succ, ?_⟩
    intro k
    cases k with
    | zero => decide
    | succ k => rw [waves_scenario_fail_succ]; rfl

/-- C3 witness: instantiating the containment at the scenario graph with all
builds succeeding — `B` sits in wave 1, so its ancestor `A` must have
succeeded. -/
theorem failed_descendants_pruned_witness : okAll imgA = true :=
  (failed_descendants_pruned scenarioInsts okAll (by decide) (by decide)).1
    1 imgB (by decide) imgA (by decide)

/-! ## The `stop_on_error` control flow of the build loop (lines 643-680)

`schedLoop` mirrors the `while building_images` loop.  Every node of the
current frontier is submitted (the futures dictionary is built for the whole
wave before any result is collected).  If `stop_on_error` is set and some
build of the wave failed, the `RuntimeError` of lines 663-666 propagates out
of `run_mode_image`: the outcome is `raised` and no further frontier is
computed.  Otherwise the failures are recorded in `failed_images` and the
next frontier excludes their downstream.  The fuel argument is a model
artifact standing for the finiteness of the chains; `none` means the bound
was exceeded and never occurs when the fuel exceeds the number of rounds. -/

inductive SchedOutcome : Type where
  | finished (submitted : List (Finset Image))
  | raised (submitted : List (Finset Image))
deriving DecidableEq

def schedLoop (images : String → Finset Image) (buildOk : Image → Bool)
    (stopOnError : Bool) :
    Nat → Finset Image → List (Finset Image) → Option SchedOutcome
  | 0, frontier, acc =>
      if frontier = ∅ then some (.finished acc.reverse) else none
  | fuel + 1, frontier, acc =>
      if frontier = ∅ then some (.finished acc.reverse)
      else if stopOnError = true ∧ ∃ i ∈ frontier, buildOk i = false then
        some (.raised (frontier :: acc).reverse)
      else
        schedLoop images buildOk stopOnError fuel
          (nextWave images buildOk frontier) (frontier :: acc)

/-- The whole build phase of `run_mode_image`, starting from the frontier
seeded by the external roots. -/
def runScheduler (g : BuildGraph) (buildOk : Image → Bool)
    (stopOnError : Bool) (fuel : Nat) : Option SchedOutcome :=
  schedLoop g.images buildOk stopOnError fuel (wave0 g) []

theorem schedLoop_raised_shape (images : String → Finset Image)
    (buildOk : Image → Bool) :
    ∀ fuel frontier acc ws,
      schedLoop images buildOk true fuel frontier acc
        = some (.raised ws) →
      ∃ pre, ws = acc.reverse ++ pre ∧ pre ≠ [] ∧
        (∀ w ∈ pre.dropLast, ∀ i ∈ w, buildOk i = true) ∧
        (∃ w, pre.getLast? = some w ∧ ∃ i ∈ w, buildOk i = false) := by
  intro fuel
  induction fuel with
  | zero =>
      intro frontier acc ws h
      rw [schedLoop] at h
      split at h <;> simp at h
  | succ fuel ih =>
      intro frontier acc ws h
      rw [schedLoop] at h
      split at h
      · simp at h
      · split at h
        next hfail =>
          simp only [Option.some.injEq, SchedOutcome.raised.injEq] at h
          subst h
          refine ⟨[frontier], by simp, by simp, by simp, frontier, by simp, ?_⟩
          obtain ⟨-, i, hi, hfi⟩ := hfail
          exact ⟨i, hi, hfi⟩
        next hfail =>
          obtain ⟨pre, hws, hne, hdrop, hlast⟩ := ih _ _ _ h
          obtain ⟨p0, rest, rfl⟩ : ∃ p0 rest, pre = p0 :: rest := by
            cases pre with
            | nil => exact absurd rfl hne
            | cons p0 rest => exact ⟨p0, rest, rfl⟩
          refine ⟨frontier :: p0 :: rest, by simpa using hws, by simp, ?_, ?_⟩
          · intro w hw i hiw
            rw [List.dropLast_cons₂] at hw
            rcases List.mem_cons.mp hw with rfl | hw'
            · by_contra hbad
              exact hfail ⟨rfl, i, hiw, by simpa using hbad⟩
            · exact hdrop w hw' i hiw
          · obtain ⟨w, hw, hfw⟩ := hlast
            exact ⟨w, by rw [List.getLast?_cons_cons]; exact hw, hfw⟩

theorem schedLoop_no_raise (images : String → Finset Image)
    (buildOk : Image → Bool) :
    ∀ fuel frontier acc ws,
      schedLoop images buildOk false fuel frontier acc ≠ some (.raised ws) := by
  intro fuel
  induction fuel with
  | zero =>
      intro frontier acc ws h
      rw [schedLoop] at h
      split at h <;> simp at h
  | succ fuel ih =>
      intro frontier acc ws h
      rw [schedLoop] at h
      split at h
      · simp at h
      · split at h
        next hfail => simp at hfail
        next => exact ih _ _ _ h

/-- C4: with `stop_on_error=true` the scheduler raises at the first wave
containing a failure: (a) reaching a nonempty frontier with a failed build
yields the `raised` outcome with that frontier as the last submitted wave and
nothing after it; (b) whenever the full run raises, every wave before the
last is entirely successful and the last submitted wave holds a failure.
With `stop_on_error=false`: (c) the loop never raises, and (d) the failure
only prunes the failed node's descendants — any recorded node all of whose
ancestors built successfully is still submitted (in the wave at its chain
depth), so an unrelated sibling subtree with no failed ancestor completes. -/
theorem stop_on_error_policy :
    (∀ (images : String → Finset Image) (buildOk : Image → Bool)
        (fuel : Nat) (frontier : Finset Image) (acc : List (Finset Image)),
        frontier ≠ ∅ → (∃ i ∈ frontier, buildOk i = false) →
        schedLoop images buildOk true (fuel + 1) frontier acc
          = some (.raised (frontier :: acc).reverse)) ∧
    (∀ (g : BuildGraph) (buildOk : Image → Bool) (fuel : Nat)
        (ws : List (Finset Image)),
        runScheduler g buildOk true fuel = some (.raised ws) →
        ws ≠ [] ∧ (∀ w ∈ ws.dropLast, ∀ i ∈ w, buildOk i = true) ∧
        (∃ w, ws.getLast? = some w ∧ ∃ i ∈ w, buildOk i = false)) ∧
    (∀ (images : String → Finset Image) (buildOk : Image → Bool)
        (fuel : Nat) (frontier : Finset Image) (acc ws : List (Finset Image)),
        schedLoop images buildOk false fuel frontier acc
          ≠ some (.raised ws)) ∧
    (∀ (insts : List Image) (buildOk : Image → Bool),
        ∀ x ∈ graphImages insts,
          (∀ a ∈ x.properAncestors, buildOk a = true) →
          x ∈ waves (buildGraph insts) buildOk x.depth) := by
  refine ⟨?_, ?_, ?_, ?_⟩
  · intro images buildOk fuel frontier acc hne hfail
    rw [schedLoop]
    rw [if_neg hne, if_pos ⟨rfl, hfail⟩]
  · intro g buildOk fuel ws h
    obtain ⟨pre, hws, hne, hdrop, hlast⟩ :=
      schedLoop_raised_shape g.images buildOk fuel (wave0 g) [] ws h
    simp only [List.reverse_nil, List.nil_append] at hws
    subst hws
    exact ⟨hne, hdrop, hlast⟩
  · exact schedLoop_no_raise
  · intro insts buildOk x hx hanc
    exact mem_waves_depth hx hanc

/-- C4 witness: the scenario graph with `A` failing.  With
`stop_on_error=true` the run raises after submitting only wave `{A}`; with
`stop_on_error=false` it never raises, and in a run where instead `B` fails,
the unrelated sibling `C` (no failed ancestor) is still submitted at its
depth. -/
theorem stop_on_error_policy_witness :
    schedLoop (buildGraph scenarioInsts).images okFailA true 4
        (wave0 (buildGraph scenarioInsts)) []
      = some (.raised ([{imgA}] : List (Finset Image))) ∧
    (runScheduler (buildGraph scenarioInsts) okFailA true 4
        = some (.raised [{imgA}]) →
      ([({imgA} : Finset Image)] ≠ [] ∧
       (∀ w ∈ ([({imgA} : Finset Image)] : List (Finset Image)).dropLast,
          ∀ i ∈ w, okFailA i = true) ∧
       (∃ w, ([({imgA} : Finset Image)] : List (Finset Image)).getLast?
          = some w ∧ ∃ i ∈ w, okFailA i = false))) ∧
    imgC ∈ waves (buildGraph scenarioInsts)
      (fun i => if i = imgB then false else true) imgC.depth := by
  refine ⟨?_, ?_, ?_⟩
  · have h1 := stop_on_error_policy.1 (buildGraph scenarioInsts).images okFailA 3
      (wave0 (buildGraph scenarioInsts)) [] (by decide) (by decide)
    rw [h1]
    decide
  · intro h
    exact stop_on_error_policy.2.1 (buildGraph scenarioInsts) okFailA 4 _ h
  · exact stop_on_error_policy.2.2.2 scenarioInsts
      (fun i => if i = imgB then false else true) imgC (by decide) (by decide)

/-! ## `build_image` (lines 571-608) as a trace of Container Runtime Adapter
calls

The method first evaluates `not self.force_build and
docker_util.exists(image.image_full_name())` — short-circuit, so with
`force_build=True` no existence query happens — and returns early when the
image exists.  Otherwise it materialises the build context and calls
`docker_util.build(..., image.image_full_name() + "_v1", ...)`.  Only the
adapter calls are traced here; the filesystem writes of the build context are
not adapter calls. -/

inductive DockerCall : Type where
  | existsCheck (tag : String)
  | build (tag : String)
deriving DecidableEq

/-- The Container Runtime Adapter calls `build_image` performs, given the
`force_build` flag and the adapter's current `exists` answers. -/
def build_image (force_build : Bool) (dockerExists : String → Bool)
    (img : Image) : List DockerCall :=
  if force_build = false then
    if dockerExists img.image_full_name then
      [.existsCheck img.image_full_name]
    else
      [.existsCheck img.image_full_name,
       .build (img.image_full_name ++ "_v1")]
  else
    [.build (img.image_full_name ++ "_v1")]

/-- The calls of a trace that hit the adapter's build primitive. -/
def buildCallsOf (l : List DockerCall) : List DockerCall :=
  l.filter fun c => match c with
    | .build _ => true
    | .existsCheck _ => false

/-- The adapter's `exists` answers after a successful
`docker_util.build(..., image.image_full_name() + "_v1", ...)`: the freshly
built tag now exists, everything else is unchanged. -/
def existsAfterBuild (dockerExists : String → Bool) (img : Image) :
    String → Bool :=
  fun t => t = img.image_full_name ++ "_v1" || dockerExists t

/-- C5: if the adapter reports `image_full_name()` as existing and
`force_build=false`, `build_image` returns right after the existence query:
its trace is exactly that query, so it performs zero calls to the adapter's
build primitive. -/
theorem build_image_skips_existing (dockerExists : String → Bool) (img : Image)
    (h : dockerExists img.image_full_name = true) :
    build_image false dockerExists img = [.existsCheck img.image_full_name] ∧
    buildCallsOf (build_image false dockerExists img) = [] := by
  constructor
  · simp [build_image, h]
  · simp [build_image, h, buildCallsOf]

/-- C5 witness: a concrete image the adapter reports as existing. -/
theorem build_image_skips_existing_witness :
    build_image false (fun t => t = "A") imgA
      = [.existsCheck (Image.image_full_name imgA)] ∧
    buildCallsOf (build_image false (fun t => t = "A") imgA) = [] :=
  build_image_skips_existing (fun t => t = "A") imgA (by decide)

theorem append_v1_ne (s : String) : s ≠ s ++ "_v1" := by
  intro h
  have hlen := congrArg String.length h
  rw [String.length_append] at hlen
  have h3 : ("_v1" : String).length = 3 := rfl
  omega

/-- C10: every tag `build_image` passes to the adapter's build primitive is
`image_full_name() + "_v1"`, while every existence query it makes is for the
bare `image_full_name()`; since the two tags differ, a successful build
leaves the program's own later existence query for that image unchanged —
building never makes the pre-build check of a later pass return true. -/
theorem build_tag_mismatch (force_build : Bool) (dockerExists : String → Bool)
    (img : Image) :
    (∀ t, DockerCall.build t ∈ build_image force_build dockerExists img →
        t = img.image_full_name ++ "_v1") ∧
    (∀ t, DockerCall.existsCheck t ∈ build_image force_build dockerExists img →
        t = img.image_full_name) ∧
    existsAfterBuild dockerExists img img.image_full_name
      = dockerExists img.image_full_name := by
  refine ⟨?_, ?_, ?_⟩
  · intro t ht
    unfold build_image at ht
    split at ht
    · split at ht <;> simp_all
    · simp_all
  · intro t ht
    unfold build_image at ht
    split at ht
    · split at ht <;> simp_all
    · simp_all
  · unfold existsAfterBuild
    rw [decide_eq_false (append_v1_ne img.image_full_name), Bool.false_or]

/-- C10 witness: the mismatch at a concrete image and adapter state — the
build trace tags `"A_v1"`, the query is `"A"`, and after the build the query
for `"A"` still answers as before. -/
theorem build_tag_mismatch_witness :
    ("A_v1" = Image.image_full_name imgA ++ "_v1") ∧
    ("A" = Image.image_full_name imgA) ∧
    existsAfterBuild (fun _ => false) imgA (Image.image_full_name imgA)
      = (fun _ : String => false) (Image.image_full_name imgA) :=
  ⟨(build_tag_mismatch true (fun _ => false) imgA).1 "A_v1" (by decide),
   (build_tag_mismatch false (fun _ => false) imgA).2.1 "A" (by decide),
   (build_tag_mismatch true (fun _ => false) imgA).2.2⟩

/-! ## `run_instance` (lines 684-725)

The method computes the instance directory, creates it (`mkdir(parents=True,
exist_ok=True)`), writes the instance's fix patch to `fix.patch`, and only
then checks whether the report file exists — returning without touching the
container runtime when it does; otherwise it invokes
`run_and_build_dockerfile("fix", instance.name() + "_v1", ...)`.

The filesystem is modelled at content level: a set of directories and a map
from paths to file contents.  Note the fix-patch write happens before the
skip check, but on a later pass it rewrites the identical content the first
pass wrote, so the content-level state is unchanged. -/

structure FsState : Type where
  dirs : String → Bool
  files : String → Option String

/-- An effectful step of `run_instance` that reaches outside the workdir
filesystem: the container-runtime invocation of lines 711-717. -/
inductive RunEffect : Type where
  | runAdapter (tag : String)
deriving DecidableEq

/-- The data of one instance that `run_instance` consults. -/
structure InstData : Type where
  org : String
  repo : String
  depWorkdir : String
  name : String
  prId : String

/-- Modelled from the spec: `EVALUATION_WORKDIR` and `REPORT_FILE` come from
`harness/constant.py`, which is not part of the sources at hand; the spec
only fixes the layout `workdir/{org}/{repo}/{build_or_eval_stage}/
{image_workdir}/...` with a report file at a fixed path per instance, so both
path components are kept abstract as parameters below.  `instance_dir` is the
directory of lines 685-691. -/
def instance_dir (workdir evalWorkdir : String) (i : InstData) : String :=
  workdir ++ "/" ++ i.org ++ "/" ++ i.repo ++ "/" ++ evalWorkdir ++ "/"
    ++ i.depWorkdir

/-- `run_instance`: returns the filesystem state after the call together with
the container-runtime invocations it performed.  `patches` is the
`self.patches` map restricted to fix patches. -/
def run_instance (workdir evalWorkdir reportFile : String)
    (patches : String → String) (i : InstData) (st : FsState) :
    FsState × List RunEffect :=
  let dir := instance_dir workdir evalWorkdir i
  let st1 : FsState := ⟨fun d => if d = dir then true else st.dirs d, st.files⟩
  let fixPath := dir ++ "/fix.patch"
  let st2 : FsState :=
    ⟨st1.dirs, fun p => if p = fixPath then some (patches i.prId)
                        else st1.files p⟩
  let reportPath := dir ++ "/" ++ reportFile
  match st2.files reportPath with
  | some _ => (st2, [])
  | none => (st2, [RunEffect.runAdapter (i.name ++ "_v1")])

/-- C6: on a later pass — the report file exists, the instance directory was
already created, and `fix.patch` already holds this instance's fix patch,
exactly the state the first pass left behind — `run_instance` performs zero
Container Runtime Adapter invocations and the on-disk state it returns equals
the initial one. -/
theorem run_instance_skip_idempotent (workdir evalWorkdir reportFile : String)
    (patches : String → String) (i : InstData) (st : FsState) (r : String)
    (hrep : st.files (instance_dir workdir evalWorkdir i ++ "/" ++ reportFile)
      = some r)
    (hfix : st.files (instance_dir workdir evalWorkdir i ++ "/fix.patch")
      = some (patches i.prId))
    (hdir : st.dirs (instance_dir workdir evalWorkdir i) = true) :
    run_instance workdir evalWorkdir reportFile patches i st = (st, []) := by
  have hst2 :
      (⟨fun d => if d = instance_dir workdir evalWorkdir i then true
                 else st.dirs d,
        fun p => if p = instance_dir workdir evalWorkdir i ++ "/fix.patch"
                 then some (patches i.prId) else st.files p⟩ : FsState) = st := by
    have hd : (fun d => if d = instance_dir workdir evalWorkdir i then true
        else st.dirs d) = st.dirs := by
      funext d
      by_cases h : d = instance_dir workdir evalWorkdir i
      · subst h; simp [hdir]
      · simp [h]
    have hf : (fun p => if p = instance_dir workdir evalWorkdir i
          ++ "/fix.patch" then some (patches i.prId) else st.files p)
        = st.files := by
      funext p
      by_cases h : p = instance_dir workdir evalWorkdir i ++ "/fix.patch"
      · subst h; simp [hfix]
      · simp [h]
    cases st
    simp only at hd hf
    rw [hd, hf]
  unfold run_instance
  simp only []
  rw [hst2, hrep]
  by_cases hc : instance_dir workdir evalWorkdir i ++ "/" ++ reportFile
      = instance_dir workdir evalWorkdir i ++ "/fix.patch"
  · simp [hc]
  · simp [hc]

/-- C6 witness: a concrete later-pass state for one instance. -/
theorem run_instance_skip_idempotent_witness :
    run_instance "w" "eval" "report.json" (fun _ => "PATCH")
      ⟨"org", "repo", "imgdir", "inst", "id1"⟩
      ⟨fun d => d = "w/org/repo/eval/imgdir",
       fun p => if p = "w/org/repo/eval/imgdir/report.json" then some "done"
                else if p = "w/org/repo/eval/imgdir/fix.patch"
                then some "PATCH" else none⟩
      = (⟨fun d => d = "w/org/repo/eval/imgdir",
          fun p => if p = "w/org/repo/eval/imgdir/report.json" then some "done"
                   else if p = "w/org/repo/eval/imgdir/fix.patch"
                   then some "PATCH" else none⟩, []) :=
  run_instance_skip_idempotent "w" "eval" "report.json" (fun _ => "PATCH")
    ⟨"org", "repo", "imgdir", "inst", "id1"⟩ _ "done"
    (by decide) (by decide) (by decide)

/-! ## Error containment during instance and graph construction

Two distinct places matter for claim C7.  The `instances` property
(lines 455-464) wraps `Instance.create(pr, config)` in `try/except`: a raise
there is logged and only that instance is dropped.  The graph-construction
loop of `run_mode_image` (lines 614-632) has no exception handling at all: a
raise from a `dependency()` call there propagates out of `run_mode_image`.

`RImage` extends the image chains with a node whose `dependency()` raises;
`collectR` is the chain walk on such images, returning `Except`. -/

/-- An image in whose upstream chain a `dependency()` call may raise. -/
inductive RImage : Type where
  | base  (name : String) (ref : String) : RImage
  | layer (name : String) (parent : RImage) : RImage
  | err   (name : String) (msg : String) : RImage
deriving DecidableEq

def RImage.image_full_name : RImage → String
  | .base n _ => n
  | .layer n _ => n
  | .err n _ => n

/-- Whether some `dependency()` call along the chain raises. -/
def RImage.hasErr : RImage → Bool
  | .base _ _ => false
  | .layer _ p => p.hasErr
  | .err _ _ => true

/-- The build graph over fallible images. -/
structure RGraph : Type where
  external_images : Finset String
  images : String → Finset RImage

def emptyRGraph : RGraph := ⟨∅, fun _ => ∅⟩

def addRImage (m : String → Finset RImage) (k : String) (i : RImage) :
    String → Finset RImage :=
  fun n => if n = k then insert i (m n) else m n

/-- The chain walk of lines 618-632 on a fallible chain.  Calling
`dependency()` on an `err` node raises; the exception is not caught anywhere
inside `run_mode_image`, so the walk returns `Except.error`.  An edge already
recorded before the raise is irrelevant: the error aborts the whole
construction. -/
def collectR : RImage → RGraph → Except String RGraph
  | .err _ m, _ => .error m
  | .base n r, g =>
      .ok ⟨insert r g.external_images, addRImage g.images r (.base n r)⟩
  | .layer n p, g =>
      collectR p
        ⟨g.external_images,
         addRImage g.images p.image_full_name (.layer n p)⟩

/-- The loop over all instances (lines 617-632): the first raise aborts the
whole graph construction of `run_mode_image`. -/
def buildGraphR (insts : List RImage) : Except String RGraph :=
  insts.foldlM (fun g i => collectR i g) emptyRGraph

/-- The `instances` property (lines 446-476): each dataset entry's
`Instance.create` result, with a raise modelled as `Except.error`; the
`try/except` of lines 456-464 drops exactly the failing entries and keeps
the rest in order. -/
def instancesOf (creations : List (Except String RImage)) : List RImage :=
  creations.filterMap fun c => c.toOption

/-- C7 counterexample: one instance whose dependency resolution raises during
graph construction aborts the whole construction — the healthy instance
`G ← ubuntu` is not retained anywhere, contradicting the claim that the run
continues for every other instance. -/
theorem graph_error_not_contained_counterexample :
    buildGraphR [RImage.err "B" "boom", RImage.base "G" "ubuntu:22.04"]
      = .error "boom" := rfl

theorem collectR_ok_of_no_err (i : RImage) (hi : i.hasErr = false) :
    ∀ g : RGraph, ∃ g2 : RGraph, collectR i g = .ok g2 := by
  induction i with
  | base n r => intro g; exact ⟨_, rfl⟩
  | layer n p ih =>
      intro g
      simp only [RImage.hasErr] at hi
      exact ih hi _
  | err n m => simp [RImage.hasErr] at hi

theorem collectR_error_of_err (i : RImage) (hi : i.hasErr = true) :
    ∀ g : RGraph, ∃ m : String, collectR i g = .error m := by
  induction i with
  | base n r => simp [RImage.hasErr] at hi
  | layer n p ih =>
      intro g
      simp only [RImage.hasErr] at hi
      exact ih hi _
  | err n m => intro g; exact ⟨m, rfl⟩

theorem foldlM_collectR_error (pre : List RImage)
    (hpre : ∀ i ∈ pre, i.hasErr = false) (bad : RImage)
    (hbad : bad.hasErr = true) (post : List RImage) :
    ∀ g : RGraph, ∃ m : String,
      (pre ++ bad :: post).foldlM (fun g i => collectR i g) g = .error m := by
  induction pre with
  | nil =>
      intro g
      obtain ⟨m, hm⟩ := collectR_error_of_err bad hbad g
      refine ⟨m, ?_⟩
      simp only [List.nil_append, List.foldlM_cons, hm]
      rfl
  | cons a l ih =>
      intro g
      have ha : a.hasErr = false := hpre a (by simp)
      obtain ⟨g2, hg2⟩ := collectR_ok_of_no_err a ha g
      have hl : ∀ i ∈ l, i.hasErr = false := fun i hi => hpre i (by simp [hi])
      obtain ⟨m, hm⟩ := ih hl g2
      refine ⟨m, ?_⟩
      simp only [List.cons_append, List.foldlM_cons, hg2]
      simpa using hm

/-- C7 amended: the isolation the claim describes happens one stage earlier,
at instance creation, not during graph construction.  (a) A raise inside
`Instance.create` removes exactly that entry from the instance list — the
surrounding entries survive in order (lines 455-464, the error being logged
per task).  (b) If any instance's dependency resolution raises during the
graph-construction loop itself, and the instances before it resolve cleanly,
the whole construction — and with it `run_mode_image` — aborts with that
error; no other instance is built. -/
theorem instance_creation_error_contained :
    (∀ (pre post : List (Except String RImage)) (e : String),
        instancesOf (pre ++ Except.error e :: post)
          = instancesOf (pre ++ post)) ∧
    (∀ (pre post : List (Except String RImage)) (i : RImage),
        instancesOf (pre ++ Except.ok i :: post)
          = instancesOf pre ++ i :: instancesOf post) ∧
    (∀ (pre post : List RImage) (bad : RImage),
        (∀ i ∈ pre, i.hasErr = false) → bad.hasErr = true →
        ∃ m : String, buildGraphR (pre ++ bad :: post) = .error m) := by
  refine ⟨?_, ?_, ?_⟩
  · intro pre post e
    simp [instancesOf, List.filterMap_append, Except.toOption]
  · intro pre post i
    simp [instancesOf, List.filterMap_append, Except.toOption]
  · intro pre post bad hpre hbad
    exact foldlM_collectR_error pre hpre bad hbad post emptyRGraph

/-- C7 amended witness: a failing creation between two healthy ones is
dropped alone, and a raising chain aborts the graph construction. -/
theorem instance_creation_error_contained_witness :
    (instancesOf [Except.ok (RImage.base "G" "u"), Except.error "boom",
        Except.ok (RImage.base "H" "u")]
      = instancesOf [Except.ok (RImage.base "G" "u"),
          Except.ok (RImage.base "H" "u")]) ∧
    ∃ m : String,
      buildGraphR [RImage.base "G" "u", RImage.err "B" "boom"] = .error m := by
  constructor
  · exact instance_creation_error_contained.1 [Except.ok (RImage.base "G" "u")]
      [Except.ok (RImage.base "H" "u")] "boom"
  · exact instance_creation_error_contained.2.2 [RImage.base "G" "u"] []
      (RImage.err "B" "boom") (by decide) (by decide)

/-! ## `check_commit_hashes` (lines 531-569) and its place in
`run_mode_image` (lines 610-612)

The method walks every repository of `repo_commits`; per repository it reads
the mirror's full commit-hash list and logs one error per declared
`(commit, pr)` pair whose hash is absent (an empty hash list yields a single
repository-level error and skips the pair loop).  Errors only set the
`error_happened` flag — nothing stops the traversal — and the single
`ValueError` is raised after the whole traversal, so the log carries every
offender.  The cleanliness branch (lines 541-550) can never flag an error:
on a dirty tree the flag is overwritten with `True` before the re-check, so
it is omitted here.  `run_mode_image` calls the check before constructing
the graph and before submitting any build. -/

inductive CommitError : Type where
  | noHashes (repo : String)
  | missing (repo : String) (hash : String) (pr : Nat)
deriving DecidableEq

/-- The errors lines 552-566 log for one repository, in order.  `mirror`
abstracts `git_util.get_all_commit_hashes` on the local mirror. -/
def repoErrors (mirror : String → List String) (repo : String)
    (commits : List (String × Nat)) : List CommitError :=
  if mirror repo = [] then [.noHashes repo]
  else (commits.filter fun c => (mirror repo).contains c.1 = false).map
    fun c => .missing repo c.1 c.2

/-- All errors `check_commit_hashes` logs over every repository. -/
def commitErrors (mirror : String → List String)
    (repoCommits : List (String × List (String × Nat))) : List CommitError :=
  repoCommits.flatMap fun rc => repoErrors mirror rc.1 rc.2

/-- `check_commit_hashes`: traverse everything, then raise (the aggregated
error list) iff anything was logged. -/
def check_commit_hashes (mirror : String → List String)
    (repoCommits : List (String × List (String × Nat))) :
    Except (List CommitError) Unit :=
  if commitErrors mirror repoCommits = [] then .ok ()
  else .error (commitErrors mirror repoCommits)

/-- `run_mode_image` up to the build phase: the commit-hash check runs first
(line 612); only when it passes does the wave scheduler produce any wave. -/
def run_mode_image (mirror : String → List String)
    (repoCommits : List (String × List (String × Nat)))
    (g : BuildGraph) (buildOk : Image → Bool) :
    Except (List CommitError) (Nat → Finset Image) :=
  match check_commit_hashes mirror repoCommits with
  | .error es => .error es
  | .ok _ => .ok (waves g buildOk)

theorem mem_commitErrors_missing {mirror : String → List String}
    {repoCommits : List (String × List (String × Nat))}
    {repo : String} {commits : List (String × Nat)} {h : String} {pr : Nat}
    (hrc : (repo, commits) ∈ repoCommits) (hp : (h, pr) ∈ commits)
    (hne : mirror repo ≠ []) (habs : (mirror repo).contains h = false) :
    CommitError.missing repo h pr ∈ commitErrors mirror repoCommits := by
  unfold commitErrors
  rw [List.mem_flatMap]
  refine ⟨(repo, commits), hrc, ?_⟩
  unfold repoErrors
  rw [if_neg hne, List.mem_map]
  exact ⟨(h, pr), List.mem_filter.mpr ⟨hp, by simpa using habs⟩, rfl⟩

theorem mem_commitErrors_noHashes {mirror : String → List String}
    {repoCommits : List (String × List (String × Nat))}
    {repo : String} {commits : List (String × Nat)}
    (hrc : (repo, commits) ∈ repoCommits) (hemp : mirror repo = []) :
    CommitError.noHashes repo ∈ commitErrors mirror repoCommits := by
  unfold commitErrors
  rw [List.mem_flatMap]
  refine ⟨(repo, commits), hrc, ?_⟩
  unfold repoErrors
  rw [if_pos hemp]
  simp

/-- C8: the pre-flight check examines every repository and every declared
`(commit, pr)` pair before failing.  (a) If any declared commit is absent
from a (non-empty) mirror, `run_mode_image` raises before any wave exists,
and the raised aggregate contains the offender's entry — every such offender,
not only the first, since the statement quantifies over all of them at once.
(b) A repository whose mirror has no hashes at all likewise appears in the
aggregate.  (c) Conversely, when the run proceeds to building, no error was
logged at all. -/
theorem preflight_commit_check (mirror : String → List String)
    (repoCommits : List (String × List (String × Nat)))
    (g : BuildGraph) (buildOk : Image → Bool) :
    (∀ repo commits h pr, (repo, commits) ∈ repoCommits → (h, pr) ∈ commits →
        mirror repo ≠ [] → (mirror repo).contains h = false →
        ∃ es, run_mode_image mirror repoCommits g buildOk = .error es ∧
          CommitError.missing repo h pr ∈ es) ∧
    (∀ repo commits, (repo, commits) ∈ repoCommits → mirror repo = [] →
        ∃ es, run_mode_image mirror repoCommits g buildOk = .error es ∧
          CommitError.noHashes repo ∈ es) ∧
    (∀ w, run_mode_image mirror repoCommits g buildOk = .ok w →
        commitErrors mirror repoCommits = []) := by
  have herr : commitErrors mirror repoCommits ≠ [] →
      run_mode_image mirror repoCommits g buildOk
        = .error (commitErrors mirror repoCommits) := by
    intro hne
    unfold run_mode_image check_commit_hashes
    rw [if_neg hne]
  refine ⟨?_, ?_, ?_⟩
  · intro repo commits h pr hrc hp hmne habs
    have hmem := mem_commitErrors_missing hrc hp hmne habs
    have hne : commitErrors mirror repoCommits ≠ [] := by
      intro hnil; rw [hnil] at hmem; exact absurd hmem (List.not_mem_nil _)
    exact ⟨commitErrors mirror repoCommits, herr hne, hmem⟩
  · intro repo commits hrc hemp
    have hmem := mem_commitErrors_noHashes hrc hemp
    have hne : commitErrors mirror repoCommits ≠ [] := by
      intro hnil; rw [hnil] at hmem; exact absurd hmem (List.not_mem_nil _)
    exact ⟨commitErrors mirror repoCommits, herr hne, hmem⟩
  · intro w hok
    unfold run_mode_image check_commit_hashes at hok
    by_cases hnil : commitErrors mirror repoCommits = []
    · exact hnil
    · rw [if_neg hnil] at hok; exact absurd hok (by simp)

/-- C8 witness: two offending pairs in two repositories; both appear in the
aggregate the run raises before building. -/
theorem preflight_commit_check_witness :
    ∃ es, run_mode_image
        (fun r => if r = "o/r1" then ["c1"] else ["c2"])
        [("o/r1", [("c1", 1), ("bad1", 2)]), ("o/r2", [("bad2", 3)])]
        emptyGraph okAll = .error es ∧
      CommitError.missing "o/r1" "bad1" 2 ∈ es := by
  exact (preflight_commit_check
      (fun r => if r = "o/r1" then ["c1"] else ["c2"])
      [("o/r1", [("c1", 1), ("bad1", 2)]), ("o/r2", [("bad2", 3)])]
      emptyGraph okAll).1 "o/r1" [("c1", 1), ("bad1", 2)] "bad1" 2
    (by decide) (by decide) (by decide) (by decide)

/-! ## The two cited `parse_log` implementations (claim C9)

`MOTO_4_0_6.parse_log` (repos/python/getmoto/moto_4_0_6.py, lines 209-252)
is line-oriented: per line it anchors
`^(?P<name>\S+::\S+) (?P<status>PASSED|FAILED|SKIPPED)` and, failing that,
`^FAILED (?P<name>\S+::\S+)`.  `Guava.parse_log`
(repos/java/google/guava.py, lines 193-233) runs `findall` with a two-line
surefire-summary pattern and converts the four captured counters with `int`.

The regexes are realised directly: for `^(\S+::\S+) ...` a match exists iff
the line's leading maximal non-whitespace token splits as `A ++ "::" ++ B`
with `A`, `B` nonempty and is followed by a literal space and one of the
status words, and the `name` group is then that whole token (the group is
made of `\S` so it must end where the token ends).  Partial operations of the
Python — `group(...)` lookups and `int(...)` — are threaded through `Option`,
so the parsers return `none` exactly where the original could raise; claim
C9's totality is the statement that `none` is never reached.  Unicode-only
details (exotic line boundaries and non-ASCII digits) are modelled by the
explicit character sets below. -/

/-- Characters Python's `\s` (and `str.isspace`) treats as whitespace, up to
the ASCII/Latin-1 range plus the common Unicode line separators. -/
def isPySpace (c : Char) : Bool :=
  c = ' ' || c = '\t' || c = '\n' || c = '\r' || c = '\x0b' || c = '\x0c' ||
  c = '\x1c' || c = '\x1d' || c = '\x1e' || c = '\x1f' || c = '\x85' ||
  c = '\xa0' || c = ' ' || c = ' '

/-- Line boundaries of Python's `str.splitlines` (without `\r\n`, which is
treated as one boundary by the splitter below). -/
def isLineBreakChar (c : Char) : Bool :=
  c = '\n' || c = '\r' || c = '\x0b' || c = '\x0c' || c = '\x1c' ||
  c = '\x1d' || c = '\x1e' || c = '\x85' || c = ' ' || c = ' '

/-- `str.splitlines`: boundaries split, a trailing boundary produces no empty
final line, `\r\n` counts once. -/
def pySplitlinesGo (cur : List Char) : List Char → List (List Char)
  | [] => if cur = [] then [] else [cur.reverse]
  | '\r' :: '\n' :: t => cur.reverse :: pySplitlinesGo [] t
  | c :: t =>
      if isLineBreakChar c then cur.reverse :: pySplitlinesGo [] t
      else pySplitlinesGo (c :: cur) t

def pySplitlines (cs : List Char) : List (List Char) :=
  pySplitlinesGo [] cs

/-- `∃ B ≠ [], l = X ++ ':' :: ':' :: B` for some (possibly empty) `X`. -/
def hasCC : List Char → Bool
  | ':' :: ':' :: _ :: _ => true
  | _ :: rest => hasCC rest
  | [] => false

/-- Whether a token of non-whitespace characters matches `\S+::\S+`
entirely: it decomposes as `A ++ "::" ++ B` with `A` and `B` nonempty. -/
def splitsAsName : List Char → Bool
  | _ :: rest => hasCC rest
  | [] => false

/-- The result of one `re.match` of
`^(?P<name>\S+::\S+) (?P<status>PASSED|FAILED|SKIPPED)`: the named groups on
success.  The `name` group is the line's maximal leading `\S` run (the group
must end at the first whitespace since `\S` cannot cross it and a literal
space must follow), which must split as `\S+::\S+`; after the space the
status alternatives are tried as prefixes of the remainder (`re.match` does
not anchor the end). -/
def motoTok (cs : List Char) : List Char :=
  cs.takeWhile fun c => !(isPySpace c)

def motoMatch1 (line : List Char) : Option (List (String × List Char)) :=
  if splitsAsName (motoTok line) then
    match line.drop (motoTok line).length with
    | ' ' :: r2 =>
        if "PASSED".data.isPrefixOf r2 then
          some [("name", motoTok line), ("status", "PASSED".data)]
        else if "FAILED".data.isPrefixOf r2 then
          some [("name", motoTok line), ("status", "FAILED".data)]
        else if "SKIPPED".data.isPrefixOf r2 then
          some [("name", motoTok line), ("status", "SKIPPED".data)]
        else none
    | _ => none
  else none

/-- Literal-prefix consumption: `some` of the remainder iff `lit` leads. -/
def expects (lit cs : List Char) : Option (List Char) :=
  if lit.isPrefixOf cs then some (cs.drop lit.length) else none

/-- One `re.match` of `^FAILED (?P<name>\S+::\S+)`: after the literal, the
maximal `\S` run must split as `\S+::\S+` and is the `name` group (nothing
follows the group in the pattern, so the greedy `\S+` reaches the token
end). -/
def motoMatch2 (line : List Char) : Option (List (String × List Char)) :=
  match expects "FAILED ".data line with
  | none => none
  | some r =>
      if splitsAsName (motoTok r) then some [("name", motoTok r)] else none

/-- `m.group(<name>)`: `none` models the `IndexError` of an unknown group. -/
def lookupGroup : List (String × List Char) → String → Option (List Char)
  | [], _ => none
  | g :: gs, n => if g.1 = n then some g.2 else lookupGroup gs n

/-- The structured result every `parse_log` builds (counts plus name sets). -/
structure TestResult : Type where
  passed_count : Nat
  failed_count : Nat
  skipped_count : Nat
  passed_tests : Finset String
  failed_tests : Finset String
  skipped_tests : Finset String
deriving DecidableEq

/-- The three accumulating sets (passed, failed, skipped). -/
def ParseAcc : Type := Finset String × Finset String × Finset String

def mkTestResult (acc : ParseAcc) : TestResult :=
  ⟨acc.1.card, acc.2.1.card, acc.2.2.card, acc.1, acc.2.1, acc.2.2⟩

/-- One line of the moto 4.0.6 loop (lines 222-236): try the status pattern,
`continue` on success; otherwise try the `FAILED` prefix pattern. -/
def motoStep (acc : ParseAcc) (line : List Char) : Option ParseAcc :=
  match motoMatch1 line with
  | some gs =>
      match lookupGroup gs "name", lookupGroup gs "status" with
      | some name, some status =>
          if String.mk status = "PASSED" then
            some (insert (String.mk name) acc.1, acc.2.1, acc.2.2)
          else if String.mk status = "FAILED" then
            some (acc.1, insert (String.mk name) acc.2.1, acc.2.2)
          else if String.mk status = "SKIPPED" then
            some (acc.1, acc.2.1, insert (String.mk name) acc.2.2)
          else some acc
      | _, _ => none
  | none =>
      match motoMatch2 line with
      | some gs =>
          match lookupGroup gs "name" with
          | some name => some (acc.1, insert (String.mk name) acc.2.1, acc.2.2)
          | none => none
      | none => some acc

/-- `MOTO_4_0_6.parse_log`, with every group access `Option`-bound; `none`
marks the places where the Python could raise. -/
def moto_parse_log (log : String) : Option TestResult := do
  let acc ← (pySplitlines log.data).foldlM motoStep (∅, ∅, ∅)
  pure (mkTestResult acc)

/-- Maximal run of characters satisfying `p`, required nonempty (the `+`
quantifier); returns the run and the remainder. -/
def plusRun (p : Char → Bool) (cs : List Char) :
    Option (List Char × List Char) :=
  if cs.takeWhile p = [] then none
  else some (cs.takeWhile p, cs.drop (cs.takeWhile p).length)

/-- The captures of the surefire summary pattern: class name and the four
counter strings. -/
structure GCaps : Type where
  name : List Char
  runs : List Char
  fails : List Char
  errs : List Char
  skips : List Char

/-- One anchored attempt of the guava pass pattern
`Running (.+?)\nTests run: (\d+), Failures: (\d+), Errors: (\d+),
Skipped: (\d+), Time elapsed: [\d\.]+ sec` at the head of `cs`.  The lazy
`(.+?)` cannot contain the following literal `\n`, so it is exactly the
nonempty run up to the next newline; the greedy `\d+` and `[\d\.]+` runs are
maximal and need no backtracking because the characters after them (`,` and
a space) are outside their classes. -/
def guavaName (r1 : List Char) : List Char :=
  r1.takeWhile fun c => c != '\n'

def guavaPassAt (cs : List Char) : Option (GCaps × List Char) :=
  match expects "Running ".data cs with
  | none => none
  | some r1 =>
      if guavaName r1 = [] then none
      else
        match expects "\nTests run: ".data (r1.drop (guavaName r1).length) with
        | none => none
        | some r3 =>
            match plusRun Char.isDigit r3 with
            | none => none
            | some (d1, r4) =>
                match expects ", Failures: ".data r4 with
                | none => none
                | some r5 =>
                    match plusRun Char.isDigit r5 with
                    | none => none
                    | some (d2, r6) =>
                        match expects ", Errors: ".data r6 with
                        | none => none
                        | some r7 =>
                            match plusRun Char.isDigit r7 with
                            | none => none
                            | some (d3, r8) =>
                                match expects ", Skipped: ".data r8 with
                                | none => none
                                | some r9 =>
                                    match plusRun Char.isDigit r9 with
                                    | none => none
                                    | some (d4, r10) =>
                                        match expects ", Time elapsed: ".data r10 with
                                        | none => none
                                        | some r11 =>
                                            match plusRun (fun c => c.isDigit || c = '.') r11 with
                                            | none => none
                                            | some (_, r12) =>
                                                match expects " sec".data r12 with
                                                | none => none
                                                | some r13 =>
                                                    some (⟨guavaName r1, d1, d2, d3, d4⟩, r13)

/-- One anchored attempt of the guava failure pattern: the pass pattern
followed by one or more spaces and the trailer. -/
def guavaFailAt (cs : List Char) : Option (GCaps × List Char) :=
  match guavaPassAt cs with
  | none => none
  | some (caps, r) =>
      match plusRun (fun c => c = ' ') r with
      | none => none
      | some (_, r2) =>
          match expects "<<< FAILURE!".data r2 with
          | none => none
          | some r3 => some (caps, r3)

/-- `Pattern.findall`: scan left to right, emit non-overlapping matches,
continue after each match's end.  The fuel is a bound on the rounds; every
caller passes at least `cs.length + 1`, which the scan cannot exhaust since
each round discards at least one character. -/
def findallG (step : List Char → Option (GCaps × List Char)) :
    Nat → List Char → List GCaps
  | 0, _ => []
  | _ + 1, [] => []
  | fuel + 1, c :: rest =>
      match step (c :: rest) with
      | some (caps, rem) => caps :: findallG step fuel rem
      | none => findallG step fuel rest

/-- `int` on a captured string (the captures here are all `\d+` runs, so the
nonnegative-numeral case of `int` suffices); `none` models `ValueError`. -/
def pyInt (cs : List Char) : Option Nat :=
  if cs = [] then none
  else if cs.all Char.isDigit then
    some (cs.foldl (fun a c => a * 10 + (c.toNat - 48)) 0)
  else none

/-- One tuple of the guava pass loop (lines 211-219): unpack and convert the
four counters with `int`, then classify. -/
def guavaPassStep (acc : ParseAcc) (t : GCaps) : Option ParseAcc :=
  match pyInt t.runs, pyInt t.fails, pyInt t.errs, pyInt t.skips with
  | some run, some fail, some err, some skip =>
      if run > 0 ∧ fail = 0 ∧ err = 0 ∧ skip ≠ run then
        some (insert (String.mk t.name) acc.1, acc.2.1, acc.2.2)
      else if fail > 0 ∨ err > 0 then
        some (acc.1, insert (String.mk t.name) acc.2.1, acc.2.2)
      else if skip = run then
        some (acc.1, acc.2.1, insert (String.mk t.name) acc.2.2)
      else some acc
  | _, _, _, _ => none

/-- One tuple of the guava failure loop (lines 221-224): `test[0]` joins the
failed set, no conversion involved. -/
def guavaFailStep (acc : ParseAcc) (t : GCaps) : ParseAcc :=
  (acc.1, insert (String.mk t.name) acc.2.1, acc.2.2)

/-- `Guava.parse_log`.  Both `findall` calls receive `re.MULTILINE` in the
`pos` parameter slot (`re_pass_test.findall(test_log, re.MULTILINE)`), and
`re.MULTILINE` has value 8, so both scans start at character index 8 of the
log — modelled by `drop 8`. -/
def guava_parse_log (log : String) : Option TestResult := do
  let acc1 ← (findallG guavaPassAt ((log.data.drop 8).length + 1)
      (log.data.drop 8)).foldlM guavaPassStep (∅, ∅, ∅)
  pure (mkTestResult ((findallG guavaFailAt ((log.data.drop 8).length + 1)
      (log.data.drop 8)).foldl guavaFailStep acc1))

/-! ## Totality of the two parsers -/

theorem motoMatch1_shape {line : List Char} {gs : List (String × List Char)}
    (h : motoMatch1 line = some gs) :
    ∃ a b, gs = [("name", a), ("status", b)] := by
  unfold motoMatch1 at h
  split at h
  · split at h
    · split at h
      · cases h; exact ⟨_, _, rfl⟩
      · split at h
        · cases h; exact ⟨_, _, rfl⟩
        · split at h
          · cases h; exact ⟨_, _, rfl⟩
          · exact absurd h (by simp)
    · exact absurd h (by simp)
  · exact absurd h (by simp)

theorem motoMatch2_shape {line : List Char} {gs : List (String × List Char)}
    (h : motoMatch2 line = some gs) : ∃ a, gs = [("name", a)] := by
  unfold motoMatch2 at h
  split at h
  · exact absurd h (by simp)
  · split at h
    · cases h; exact ⟨_, rfl⟩
    · exact absurd h (by simp)

theorem motoStep_isSome (acc : ParseAcc) (line : List Char) :
    (motoStep acc line).isSome = true := by
  unfold motoStep
  cases h1 : motoMatch1 line with
  | some gs =>
      obtain ⟨a, b, rfl⟩ := motoMatch1_shape h1
      have hn : lookupGroup [("name", a), ("status", b)] "name" = some a := rfl
      have hb : lookupGroup [("name", a), ("status", b)] "status"
        = some b := rfl
      simp only [hn, hb]
      split_ifs <;> rfl
  | none =>
      cases h2 : motoMatch2 line with
      | some gs =>
          obtain ⟨a, rfl⟩ := motoMatch2_shape h2
          have hn : lookupGroup [("name", a)] "name" = some a := rfl
          simp only [hn]
          rfl
      | none => rfl

theorem foldlM_motoStep_isSome (lines : List (List Char)) :
    ∀ acc : ParseAcc, (lines.foldlM motoStep acc).isSome = true := by
  induction lines with
  | nil => intro acc; simp
  | cons l t ih =>
      intro acc
      have h := motoStep_isSome acc l
      cases hs : motoStep acc l with
      | none => rw [hs] at h; simp at h
      | some acc2 =>
          rw [List.foldlM_cons, hs]
          simpa using ih acc2

theorem plusRun_shape {p : Char → Bool} {cs r rem : List Char}
    (h : plusRun p cs = some (r, rem)) : r ≠ [] ∧ r.all p = true := by
  unfold plusRun at h
  split at h
  · exact absurd h (by simp)
  · next hr =>
      cases h
      exact ⟨hr, List.all_takeWhile⟩

/-- The four counter captures of a successful pass-pattern match are
nonempty digit runs. -/
theorem guavaPassAt_digits {cs : List Char} {caps : GCaps} {rem : List Char}
    (h : guavaPassAt cs = some (caps, rem)) :
    (caps.runs ≠ [] ∧ caps.runs.all Char.isDigit = true) ∧
    (caps.fails ≠ [] ∧ caps.fails.all Char.isDigit = true) ∧
    (caps.errs ≠ [] ∧ caps.errs.all Char.isDigit = true) ∧
    (caps.skips ≠ [] ∧ caps.skips.all Char.isDigit = true) := by
  unfold guavaPassAt at h
  split at h
  · exact absurd h (by simp)
  · split at h
    · exact absurd h (by simp)
    · split at h
      · exact absurd h (by simp)
      · split at h
        · exact absurd h (by simp)
        · next h1 =>
            split at h
            · exact absurd h (by simp)
            · split at h
              · exact absurd h (by simp)
              · next h2 =>
                  split at h
                  · exact absurd h (by simp)
                  · split at h
                    · exact absurd h (by simp)
                    · next h3 =>
                        split at h
                        · exact absurd h (by simp)
                        · split at h
                          · exact absurd h (by simp)
                          · next h4 =>
                              split at h
                              · exact absurd h (by simp)
                              · split at h
                                · exact absurd h (by simp)
                                · split at h
                                  · exact absurd h (by simp)
                                  · cases h
                                    exact ⟨plusRun_shape h1, plusRun_shape h2,
                                      plusRun_shape h3, plusRun_shape h4⟩

theorem guavaFailAt_digits {cs : List Char} {caps : GCaps} {rem : List Char}
    (h : guavaFailAt cs = some (caps, rem)) :
    (caps.runs ≠ [] ∧ caps.runs.all Char.isDigit = true) ∧
    (caps.fails ≠ [] ∧ caps.fails.all Char.isDigit = true) ∧
    (caps.errs ≠ [] ∧ caps.errs.all Char.isDigit = true) ∧
    (caps.skips ≠ [] ∧ caps.skips.all Char.isDigit = true) := by
  unfold guavaFailAt at h
  split at h
  · exact absurd h (by simp)
  · next hp =>
      split at h
      · exact absurd h (by simp)
      · split at h
        · exact absurd h (by simp)
        · cases h
          exact guavaPassAt_digits hp

theorem findallG_digits
    (step : List Char → Option (GCaps × List Char))
    (hstep : ∀ cs caps rem, step cs = some (caps, rem) →
      (caps.runs ≠ [] ∧ caps.runs.all Char.isDigit = true) ∧
      (caps.fails ≠ [] ∧ caps.fails.all Char.isDigit = true) ∧
      (caps.errs ≠ [] ∧ caps.errs.all Char.isDigit = true) ∧
      (caps.skips ≠ [] ∧ caps.skips.all Char.isDigit = true)) :
    ∀ (fuel : Nat) (cs : List Char), ∀ caps ∈ findallG step fuel cs,
      (caps.runs ≠ [] ∧ caps.runs.all Char.isDigit = true) ∧
      (caps.fails ≠ [] ∧ caps.fails.all Char.isDigit = true) ∧
      (caps.errs ≠ [] ∧ caps.errs.all Char.isDigit = true) ∧
      (caps.skips ≠ [] ∧ caps.skips.all Char.isDigit = true) := by
  intro fuel
  induction fuel with
  | zero => intro cs caps h; simp [findallG] at h
  | succ fuel ih =>
      intro cs caps h
      cases cs with
      | nil => simp [findallG] at h
      | cons c rest =>
          rw [findallG] at h
          split at h
          · next caps2 rem hs =>
              rcases List.mem_cons.mp h with rfl | h2
              · exact hstep _ _ _ hs
              · exact ih _ _ h2
          · exact ih _ _ h

theorem pyInt_isSome {cs : List Char} (hne : cs ≠ [])
    (hd : cs.all Char.isDigit = true) : (pyInt cs).isSome = true := by
  unfold pyInt
  rw [if_neg hne, if_pos hd]
  rfl

theorem guavaPassStep_isSome (acc : ParseAcc) (t : GCaps)
    (hw : (t.runs ≠ [] ∧ t.runs.all Char.isDigit = true) ∧
      (t.fails ≠ [] ∧ t.fails.all Char.isDigit = true) ∧
      (t.errs ≠ [] ∧ t.errs.all Char.isDigit = true) ∧
      (t.skips ≠ [] ∧ t.skips.all Char.isDigit = true)) :
    (guavaPassStep acc t).isSome = true := by
  obtain ⟨⟨h1, h1d⟩, ⟨h2, h2d⟩, ⟨h3, h3d⟩, ⟨h4, h4d⟩⟩ := hw
  have p1 := pyInt_isSome h1 h1d
  have p2 := pyInt_isSome h2 h2d
  have p3 := pyInt_isSome h3 h3d
  have p4 := pyInt_isSome h4 h4d
  unfold guavaPassStep
  cases e1 : pyInt t.runs with
  | none => rw [e1] at p1; simp at p1
  | some run =>
      cases e2 : pyInt t.fails with
      | none => rw [e2] at p2; simp at p2
      | some fail =>
          cases e3 : pyInt t.errs with
          | none => rw [e3] at p3; simp at p3
          | some err =>
              cases e4 : pyInt t.skips with
              | none => rw [e4] at p4; simp at p4
              | some skip =>
                  dsimp only
                  split_ifs <;> rfl

theorem foldlM_guavaPassStep_isSome (ts : List GCaps)
    (hts : ∀ t ∈ ts,
      (t.runs ≠ [] ∧ t.runs.all Char.isDigit = true) ∧
      (t.fails ≠ [] ∧ t.fails.all Char.isDigit = true) ∧
      (t.errs ≠ [] ∧ t.errs.all Char.isDigit = true) ∧
      (t.skips ≠ [] ∧ t.skips.all Char.isDigit = true)) :
    ∀ acc : ParseAcc, (ts.foldlM guavaPassStep acc).isSome = true := by
  induction ts with
  | nil => intro acc; simp
  | cons t ts ih =>
      intro acc
      have h := guavaPassStep_isSome acc t (hts t (by simp))
      cases hs : guavaPassStep acc t with
      | none => rw [hs] at h; simp at h
      | some acc2 =>
          rw [List.foldlM_cons, hs]
          have ih2 := ih (fun x hx => hts x (by simp [hx])) acc2
          simpa using ih2

/-- C9: both cited `parse_log` implementations are total — on every input
string, every `Option`-modelled partial operation of the Python (the
`group(...)` accesses and the `int(...)` conversions on captured counters)
succeeds, so a `TestResult` is returned and no raise is reachable; and both
are deterministic: equal inputs give equal results. -/
theorem parse_log_total_deterministic :
    (∀ log : String, ∃ r, moto_parse_log log = some r) ∧
    (∀ log : String, ∃ r, guava_parse_log log = some r) ∧
    (∀ l1 l2 : String, l1 = l2 →
      moto_parse_log l1 = moto_parse_log l2 ∧
      guava_parse_log l1 = guava_parse_log l2) := by
  refine ⟨?_, ?_, ?_⟩
  · intro log
    unfold moto_parse_log
    have h := foldlM_motoStep_isSome (pySplitlines log.data) (∅, ∅, ∅)
    cases hs : (pySplitlines log.data).foldlM motoStep (∅, ∅, ∅) with
    | none => rw [hs] at h; simp at h
    | some acc => exact ⟨mkTestResult acc, rfl⟩
  · intro log
    unfold guava_parse_log
    have hwf := findallG_digits guavaPassAt
      (fun cs caps rem h => guavaPassAt_digits h)
      ((log.data.drop 8).length + 1) (log.data.drop 8)
    have h := foldlM_guavaPassStep_isSome _ hwf (∅, ∅, ∅)
    cases hs : (findallG guavaPassAt ((log.data.drop 8).length + 1)
        (log.data.drop 8)).foldlM guavaPassStep (∅, ∅, ∅) with
    | none => rw [hs] at h; simp at h
    | some acc1 =>
        exact ⟨mkTestResult ((findallG guavaFailAt
          ((log.data.drop 8).length + 1) (log.data.drop 8)).foldl
            guavaFailStep acc1), rfl⟩
  · intro l1 l2 h
    exact ⟨congrArg moto_parse_log h, congrArg guava_parse_log h⟩

/-- C9 witness: the parsers applied to a concrete mixed log (the theorem
instantiated at it, the determinism hypothesis discharged by `rfl`). -/
theorem parse_log_total_deterministic_witness :
    (∃ r, moto_parse_log
      "tests/a.py::t1 PASSED\nFAILED tests/a.py::t2 - boom" = some r) ∧
    (∃ r, guava_parse_log
      "12345678Running com.google.T\nTests run: 3, Failures: 1, Errors: 0, Skipped: 0, Time elapsed: 0.5 sec" = some r) ∧
    (moto_parse_log "x::y SKIPPED" = moto_parse_log "x::y SKIPPED" ∧
     guava_parse_log "x::y SKIPPED" = guava_parse_log "x::y SKIPPED") :=
  ⟨parse_log_total_deterministic.1 _,
   parse_log_total_deterministic.2.1 _,
   parse_log_total_deterministic.2.2 "x::y SKIPPED" "x::y SKIPPED" rfl⟩

end MSB
